import Mathlib

/-!
# Verification of the RPKI validation subsystem of `bgpkit-commons`

This file gives a shallow embedding of the RPKI module of the
`bgpkit-commons` repository (`src/rpki/mod.rs` and `src/rpki/rpki_client.rs`)
and proves / refutes the frozen specification claims about it.

Modelling conventions:
* Rust `u32` / `u8` / `u64` values are modelled as `Nat`; where wrap-around
  or range checks matter they are made explicit (`% 2 ^ 64`, `< 2 ^ 32`).
* `chrono::NaiveDateTime` values are modelled as `Int` (seconds since the
  Unix epoch); the ordering on `NaiveDateTime` is the ordering on `Int`.
* `ipnet::IpNet` is modelled by the structure `IpNet` below; `network`,
  `broadcast` and `containsNet` mirror the `ipnet` crate's `network()`,
  `broadcast()` and `Contains<&IpNet>` implementations.
* `ipnet_trie::IpnetTrie<Vec<Roa>>` is modelled as an association list from
  prefixes to ROA lists; its exact-match keying is on the address family,
  the prefix length and the network bits (`keyEq`).
* the Rust field `Roa.prefix` is called `pfx` here (same for the query
  arguments); `max_length`, `asn`, `not_before`, `not_after` keep their
  source names.
-/

/-- An IP network, modelling `ipnet::IpNet`: an address family flag, the raw
address as an integer, and the prefix length.  For IPv4 `addr < 2^32` and
`len ≤ 32`; for IPv6 `addr < 2^128` and `len ≤ 128` (`wfIpNet` below). -/
structure IpNet where
  isV6 : Bool
  addr : Nat
  len : Nat
  deriving DecidableEq, Repr

/-- Number of address bits for the family: 32 for IPv4, 128 for IPv6. -/
def IpNet.bits (a : IpNet) : Nat := if a.isV6 then 128 else 32

/-- Well-formedness of an `ipnet::IpNet` value: the length is bounded by the
family's bit width and the address fits in the family's bit width. -/
def wfIpNet (a : IpNet) : Prop := a.len ≤ a.bits ∧ a.addr < 2 ^ a.bits

instance : DecidablePred wfIpNet := fun a => by
  unfold wfIpNet; infer_instance

/-- The network address: the address with host bits cleared, mirroring
`IpNet::network()` of the `ipnet` crate. -/
def IpNet.network (a : IpNet) : Nat :=
  a.addr / 2 ^ (a.bits - a.len) * 2 ^ (a.bits - a.len)

/-- The broadcast (highest) address, mirroring `IpNet::broadcast()`. -/
def IpNet.broadcast (a : IpNet) : Nat :=
  a.network + (2 ^ (a.bits - a.len) - 1)

/-- `containsNet a b` mirrors the `ipnet` crate's
`impl Contains<&IpNet> for IpNet`: mixed address families never match, and
within one family `a` contains `b` iff
`a.network() <= b.network() && b.broadcast() <= a.broadcast()`. -/
def containsNet (a b : IpNet) : Bool :=
  a.isV6 == b.isV6 && decide (a.network ≤ b.network) &&
    decide (b.broadcast ≤ a.broadcast)

/-- Key equality of `ipnet_trie::IpnetTrie`: the trie keys a network by its
address family, its prefix length and its network bits, so `exact_match`
identifies two `IpNet` values with the same family, length and network. -/
def keyEq (a b : IpNet) : Bool :=
  a.isV6 == b.isV6 && a.len == b.len && a.network == b.network

/-- Regional Internet Registry, from `src/rpki/mod.rs` (`enum Rir`). -/
inductive Rir where
  | AFRINIC | APNIC | ARIN | LACNIC | RIPENCC
  deriving DecidableEq, Repr

/-- A Route Origin Authorization, from `src/rpki/mod.rs` (`struct Roa`).
`not_before` / `not_after` are optional timestamps (seconds since epoch). -/
structure Roa where
  pfx : IpNet
  asn : Nat
  max_length : Nat
  rir : Option Rir
  not_before : Option Int
  not_after : Option Int
  deriving DecidableEq, Repr

/-- An AS Provider Authorization, from `src/rpki/mod.rs` (`struct Aspa`). -/
structure Aspa where
  customer_asn : Nat
  providers : List Nat
  expires : Option Int
  deriving DecidableEq, Repr

/-- RPKI validation result, from `src/rpki/mod.rs` (`enum RpkiValidation`). -/
inductive RpkiValidation where
  | valid | invalid | unknown
  deriving DecidableEq, Repr

/-- The main RPKI store, from `src/rpki/mod.rs` (`struct RpkiTrie`): the
prefix trie `IpnetTrie<Vec<Roa>>` is modelled as an association list with
`keyEq`-distinct keys, plus the flat ASPA list and the optional date
(days-since-epoch of the historical snapshot, unused by validation). -/
structure RpkiTrie where
  trie : List (IpNet × List Roa)
  aspas : List Aspa
  date : Option Int
  deriving DecidableEq, Repr

/-- `RpkiTrie::new(date)`: an empty trie. -/
def RpkiTrie.new (date : Option Int) : RpkiTrie :=
  { trie := [], aspas := [], date := date }

/-- One step of `RpkiTrie::insert_roa` on the underlying association list:
`exact_match_mut` finds the entry whose key matches `roa.pfx` (`keyEq`); if
found, the ROA is appended unless an existing ROA has the same `asn` and
`max_length`, and the insert reports `false`; otherwise a new entry is
created and the insert reports `true`. -/
def insertRoaList (roa : Roa) : List (IpNet × List Roa) →
    Bool × List (IpNet × List Roa)
  | [] => (true, [(roa.pfx, [roa])])
  | (k, roas) :: rest =>
    if keyEq k roa.pfx then
      (false,
        (k,
          if roas.any fun existing =>
              existing.asn == roa.asn && existing.max_length == roa.max_length
          then roas
          else roas ++ [roa]) :: rest)
    else
      let r := insertRoaList roa rest
      (r.1, (k, roas) :: r.2)

/-- `RpkiTrie::insert_roa(roa) -> bool`, with the state passed explicitly:
returns the reported boolean and the updated trie. -/
def RpkiTrie.insertRoa (t : RpkiTrie) (roa : Roa) : Bool × RpkiTrie :=
  let r := insertRoaList roa t.trie
  (r.1, { t with trie := r.2 })

/-- `RpkiTrie::insert_roas(roas)`: folds `insert_roa` over a list,
discarding the booleans. -/
def RpkiTrie.insertRoas (t : RpkiTrie) (roas : List Roa) : RpkiTrie :=
  roas.foldl (fun acc roa => (acc.insertRoa roa).2) t

/-- The body of `RpkiTrie::lookup_by_prefix` over the entry list: for every
stored entry whose key network contains the query (the code iterates
`trie.matches(prefix)` — a superset of the containing entries — and
re-checks `p.contains(prefix)`), keep the ROAs whose `max_length` is at
least the query's prefix length. -/
def lookupEntries (q : IpNet) : List (IpNet × List Roa) → List Roa
  | [] => []
  | (k, roas) :: rest =>
    (if containsNet k q then roas.filter fun roa => q.len ≤ roa.max_length
     else []) ++ lookupEntries q rest

/-- `RpkiTrie::lookup_by_prefix(prefix) -> Vec<Roa>`. -/
def RpkiTrie.lookupByPfx (t : RpkiTrie) (q : IpNet) : List Roa :=
  lookupEntries q t.trie

/-- The loop of `RpkiTrie::validate`: return `Valid` at the first ROA with
the queried ASN and sufficient `max_length`, else `Invalid` at the end. -/
def validateLoop (q : IpNet) (asn : Nat) : List Roa → RpkiValidation
  | [] => .invalid
  | roa :: rest =>
    if roa.asn == asn && decide (q.len ≤ roa.max_length) then .valid
    else validateLoop q asn rest

/-- `RpkiTrie::validate(prefix, asn)`. -/
def RpkiTrie.validate (t : RpkiTrie) (q : IpNet) (asn : Nat) :
    RpkiValidation :=
  let ms := t.lookupByPfx q
  if ms.isEmpty then .unknown else validateLoop q asn ms

/-- The `is_valid_time` computation inside `RpkiTrie::validate_check_expiry`:
the ROA is not yet valid if `check_time < not_before` (when present) and
expired if `check_time > not_after` (when present). -/
def isValidTime (roa : Roa) (check_time : Int) : Bool :=
  (match roa.not_before with
   | some nb => if check_time < nb then false else true
   | none => true) &&
  (match roa.not_after with
   | some na => if na < check_time then false else true
   | none => true)

/-- The loop of `RpkiTrie::validate_check_expiry`, carrying the
`found_matching_asn` flag: the first ASN-matching time-valid ROA returns
`Valid`; at the end, `Unknown` if an ASN match was seen, else `Invalid`. -/
def expiryLoop (q : IpNet) (asn : Nat) (check_time : Int) :
    List Roa → Bool → RpkiValidation
  | [], found => if found then .unknown else .invalid
  | roa :: rest, found =>
    if roa.asn == asn && decide (q.len ≤ roa.max_length) then
      if isValidTime roa check_time then .valid
      else expiryLoop q asn check_time rest true
    else expiryLoop q asn check_time rest found

/-- `RpkiTrie::validate_check_expiry(prefix, asn, check_time)`.  The Rust
code defaults a missing `check_time` to `Utc::now()`; the ambient clock is
passed explicitly as `now`. -/
def RpkiTrie.validateCheckExpiry (t : RpkiTrie) (q : IpNet) (asn : Nat)
    (check_time : Option Int) (now : Int) : RpkiValidation :=
  let ms := t.lookupByPfx q
  if ms.isEmpty then .unknown
  else expiryLoop q asn (check_time.getD now) ms false

/-- All ROA records stored in a trie, in storage order. -/
def storedRoas (t : RpkiTrie) : List Roa := t.trie.flatMap (·.2)

/-!
## The source format adapter (`src/rpki/rpki_client.rs`)
-/

/-- The JSON value found in an AS-number field, as serde_json routes it to
the visitor of `deserialize_asn`: a (possibly negative) integer feeds
`visit_u64` / `visit_i64`, a string feeds `visit_str`.  Strings are
modelled as character lists. -/
inductive AsnJson where
  | num (n : Int)
  | str (s : List Char)
  deriving DecidableEq, Repr

/-- `str::strip_prefix` on character lists: remove `p` from the front of
`s` if it is there, else `none`. -/
def stripPfx : List Char → List Char → Option (List Char)
  | [], s => some s
  | _ :: _, [] => none
  | p :: ps, c :: cs => if p == c then stripPfx ps cs else none

/-- The numeric value of a decimal digit string (most significant first). -/
def digitVal (l : List Char) : Nat :=
  l.foldl (fun acc c => acc * 10 + (c.toNat - 48)) 0

/-- The sign handling of Rust's unsigned `from_str`: a leading `'+'` is
skipped (a `'-'` is left in place and later fails the digit test). -/
def stripPlus : List Char → List Char
  | '+' :: rest => rest
  | s => s

/-- Rust's `str::parse::<u32>()` on a character list: an optional leading
`'+'`, then one or more ASCII digits, value below `2^32`; anything else
(empty digits, a non-digit character, overflow) is a parse error. -/
def parseU32 (s : List Char) : Option Nat :=
  if stripPlus s ≠ [] ∧ (stripPlus s).all Char.isDigit then
    if digitVal (stripPlus s) < 2 ^ 32 then some (digitVal (stripPlus s))
    else none
  else none

/-- `deserialize_asn` from `src/rpki/rpki_client.rs`: a number goes through
`visit_u64` / `visit_i64` (`u32::try_from`, failing outside `[0, 2^32)`);
a string has an `"AS"` or `"as"` front marker stripped when present and the
remainder parsed as `u32`. -/
def deserializeAsn : AsnJson → Except String Nat
  | .num n =>
    if 0 ≤ n ∧ n < 2 ^ 32 then .ok n.toNat
    else .error "ASN out of range"
  | .str s =>
    let num_str := ((stripPfx ['A', 'S'] s).or (stripPfx ['a', 's'] s)).getD s
    match parseU32 num_str with
    | some v => .ok v
    | none => .error "invalid ASN string"

/-- A ROA entry of the rpki-client JSON (`struct RpkiClientRoaEntry`).
The Rust `prefix` field is a `String`, parsed later with the external
`ipnet` crate; here `pfx` carries the outcome of that parse (`none` for
unparseable text).  `ta` carries the outcome of `Rir::from_str(&roa.ta)`
(`.ok()`, so `none` for an unrecognised trust anchor name).  `expires` is a
`u64` with `#[serde(default)]`, so a missing field deserializes to `0`. -/
structure RpkiClientRoaEntry where
  pfx : Option IpNet
  max_length : Nat
  asn : Nat
  ta : Option Rir
  expires : Nat
  deriving DecidableEq, Repr

/-- The serde default for the `expires` field of `RpkiClientRoaEntry`
(`#[serde(default)]` on a `u64`): a missing expiry deserializes to `0`. -/
def defaultExpires : Nat := 0

/-- An ASPA entry of the rpki-client JSON (`struct RpkiClientAspaEntry`):
`customer_asid`, an `i64` expiry (serde default `0` when missing), and the
provider list. -/
structure RpkiClientAspaEntry where
  customer_asid : Nat
  expires : Int
  providers : List Nat
  deriving DecidableEq, Repr

/-- The rpki-client document (`struct RpkiClientData`), restricted to the
fields the conversion into `RpkiTrie` consults (`metadata` and
`bgpsec_keys` are carried by the Rust struct but never read by it). -/
structure RpkiClientData where
  roas : List RpkiClientRoaEntry
  aspas : List RpkiClientAspaEntry
  deriving DecidableEq, Repr

/-- Rust's `as i64` cast on a `u64` value (two's-complement wrap). -/
def u64ToI64 (n : Nat) : Int :=
  if n % 2 ^ 64 < 2 ^ 63 then (n % 2 ^ 64 : Int)
  else (n % 2 ^ 64 : Int) - 2 ^ 64

/-- `chrono::DateTime::from_timestamp(secs, 0).map(|dt| dt.naive_utc())`:
`some secs` when the timestamp lies in chrono's representable range
(years -262143 to 262142), else `none`. -/
def fromTimestamp (secs : Int) : Option Int :=
  if -8334632851200 ≤ secs ∧ secs ≤ 8210298412799 then some secs else none

/-- The `Roa` value built for one ROA entry inside
`RpkiTrie::merge_rpki_client_data`, given the successfully parsed prefix:
`not_before` is always `None`, `not_after` is
`DateTime::from_timestamp(roa.expires as i64, 0)`. -/
def roaOfEntry (e : RpkiClientRoaEntry) (p : IpNet) : Roa :=
  { pfx := p, asn := e.asn, max_length := e.max_length, rir := e.ta,
    not_before := none, not_after := fromTimestamp (u64ToI64 e.expires) }

/-- The ROA half of `RpkiTrie::merge_rpki_client_data`: each entry whose
prefix text parsed is inserted with `insert_roa`; entries whose prefix
failed to parse are skipped (`Err(_) => continue`). -/
def mergeRoaEntries (t : RpkiTrie) : List RpkiClientRoaEntry → RpkiTrie
  | [] => t
  | e :: rest =>
    match e.pfx with
    | none => mergeRoaEntries t rest
    | some p => mergeRoaEntries (t.insertRoa (roaOfEntry e p)).2 rest

/-- The ASPA half of `RpkiTrie::merge_rpki_client_data`: an entry is
appended (converted) unless an ASPA with the same customer ASN is already
present, in which case it is ignored. -/
def mergeAspaEntries (acc : List Aspa) : List RpkiClientAspaEntry →
    List Aspa
  | [] => acc
  | a :: rest =>
    if acc.any fun x => x.customer_asn == a.customer_asid then
      mergeAspaEntries acc rest
    else
      mergeAspaEntries
        (acc ++ [{ customer_asn := a.customer_asid, providers := a.providers,
                   expires := fromTimestamp a.expires }]) rest

/-- `RpkiTrie::merge_rpki_client_data(data)`: insert the ROAs, then merge
the ASPAs with first-wins deduplication on the customer ASN. -/
def RpkiTrie.mergeRpkiClientData (t : RpkiTrie) (data : RpkiClientData) :
    RpkiTrie :=
  let t1 := mergeRoaEntries t data.roas
  { t1 with aspas := mergeAspaEntries t1.aspas data.aspas }

/-- `RpkiTrie::from_rpki_client_data(data, date) -> Result<Self>`: builds a
fresh trie and merges; the `Result` never carries an error. -/
def RpkiTrie.fromRpkiClientData (data : RpkiClientData)
    (date : Option Int) : Except String RpkiTrie :=
  .ok ((RpkiTrie.new date).mergeRpkiClientData data)

/-!
## Specification-side definitions

These follow the wording of the specification document, to be compared
with the definitions above which follow the source.
-/

/-- The spec's covering relation: the key `k` is a covering
(less-specific-or-equal) network of the query `q` of the same address
family, phrased bitwise — equal family, `k.len ≤ q.len`, and the top
`k.len` bits of the two addresses agree. -/
def coveringSpec (k q : IpNet) : Prop :=
  k.isV6 = q.isV6 ∧ k.len ≤ q.len ∧
    k.addr / 2 ^ (k.bits - k.len) = q.addr / 2 ^ (q.bits - k.len)

instance (k q : IpNet) : Decidable (coveringSpec k q) := by
  unfold coveringSpec; infer_instance

/-- The spec's time-validity of a record at `at_time`: `at_time ≥
not_before` when the bound is present, and `at_time ≤ not_after` when the
bound is present. -/
def timeValidB (roa : Roa) (at_time : Int) : Bool :=
  (roa.not_before.all fun nb => decide (nb ≤ at_time)) &&
    (roa.not_after.all fun na => decide (at_time ≤ na))

/-- The spec's description of `validate`: `Unknown` when the lookup is
empty, `Valid` when some returned record's `asn` equals the query ASN,
else `Invalid`. -/
def specValidate (t : RpkiTrie) (q : IpNet) (asn : Nat) : RpkiValidation :=
  let ms := t.lookupByPfx q
  if ms.isEmpty then .unknown
  else if ms.any fun roa => roa.asn == asn then .valid
  else .invalid

/-- The spec's description of `validate_check_expiry` at an explicit check
time: `Unknown` on an empty lookup; `Valid` when some returned record
matches the ASN and is time-valid; `Unknown` when some record matches the
ASN but none of the matching ones is time-valid; `Invalid` when no record
matches the ASN. -/
def specValidateCheckExpiry (t : RpkiTrie) (q : IpNet) (asn : Nat)
    (at_time : Int) : RpkiValidation :=
  let ms := t.lookupByPfx q
  if ms.isEmpty then .unknown
  else if ms.any fun roa => roa.asn == asn && timeValidB roa at_time then
    .valid
  else if ms.any fun roa => roa.asn == asn then .unknown
  else .invalid

/-- The first stored ASPA with the given customer ASN, if any. -/
def findCustomer (l : List Aspa) (c : Nat) : Option Aspa :=
  l.find? fun a => a.customer_asn == c

/-- Direct conversion of one rpki-client ASPA entry into an `Aspa`. -/
def aspaOfEntry (a : RpkiClientAspaEntry) : Aspa :=
  { customer_asn := a.customer_asid, providers := a.providers,
    expires := fromTimestamp a.expires }

/-- The `max_length` invariant of the spec: every stored ROA record's
`max_length` is at least its own prefix length. -/
def mlInv (t : RpkiTrie) : Prop :=
  ∀ roa ∈ storedRoas t, roa.pfx.len ≤ roa.max_length

instance : DecidablePred mlInv := fun t => by
  unfold mlInv; infer_instance

/-- The decimal digit character for a value below ten. -/
def digitChar : Nat → Char
  | 0 => '0' | 1 => '1' | 2 => '2' | 3 => '3' | 4 => '4'
  | 5 => '5' | 6 => '6' | 7 => '7' | 8 => '8' | _ => '9'

/-- Fuelled construction of the decimal digit list of a number (most
significant digit first). -/
def natToDigitsAux : Nat → Nat → List Char
  | 0, _ => []
  | fuel + 1, n =>
    if n < 10 then [digitChar n]
    else natToDigitsAux fuel (n / 10) ++ [digitChar (n % 10)]

/-- The decimal digit list of a number, e.g. `64496 ↦ ['6','4','4','9','6']`. -/
def natToDigits (n : Nat) : List Char := natToDigitsAux (n + 1) n

/-!
## Helper lemmas
-/

theorem anyCongr {α : Type} {l : List α} {p p' : α → Bool}
    (h : ∀ r ∈ l, p r = p' r) : l.any p = l.any p' := by
  induction l with
  | nil => rfl
  | cons a l ih =>
    simp only [List.any_cons, h a (by simp)]
    rw [ih fun r hr => h r (by simp [hr])]

theorem mem_lookupEntries {q : IpNet} {roa : Roa}
    {es : List (IpNet × List Roa)} :
    roa ∈ lookupEntries q es ↔
      ∃ k roas, (k, roas) ∈ es ∧ roa ∈ roas ∧ containsNet k q = true ∧
        q.len ≤ roa.max_length := by
  induction es with
  | nil => simp [lookupEntries]
  | cons e rest ih =>
    obtain ⟨k, roas⟩ := e
    cases hc : containsNet k q with
    | true =>
      simp only [lookupEntries, hc, if_true, List.mem_append,
        List.mem_filter, decide_eq_true_iff, ih, List.mem_cons]
      constructor
      · rintro (⟨hr, hml⟩ | ⟨k', roas', hmem, hr, hc', hml⟩)
        · exact ⟨k, roas, Or.inl rfl, hr, hc, hml⟩
        · exact ⟨k', roas', Or.inr hmem, hr, hc', hml⟩
      · rintro ⟨k', roas', h1 | hmem, hr, hc', hml⟩
        · rw [Prod.mk.injEq] at h1
          obtain ⟨rfl, rfl⟩ := h1
          exact Or.inl ⟨hr, hml⟩
        · exact Or.inr ⟨k', roas', hmem, hr, hc', hml⟩
    | false =>
      simp only [lookupEntries, hc, Bool.false_eq_true, if_false,
        List.nil_append, ih, List.mem_cons]
      constructor
      · rintro ⟨k', roas', hmem, hr, hc', hml⟩
        exact ⟨k', roas', Or.inr hmem, hr, hc', hml⟩
      · rintro ⟨k', roas', h1 | hmem, hr, hc', hml⟩
        · rw [Prod.mk.injEq] at h1
          obtain ⟨rfl, rfl⟩ := h1
          exact absurd hc' (by simp [hc])
        · exact ⟨k', roas', hmem, hr, hc', hml⟩

theorem lookup_max_length {t : RpkiTrie} {q : IpNet} {roa : Roa}
    (h : roa ∈ t.lookupByPfx q) : q.len ≤ roa.max_length := by
  obtain ⟨_, _, _, _, _, hml⟩ := mem_lookupEntries.mp h
  exact hml

theorem lookup_sub_stored {t : RpkiTrie} {q : IpNet} {roa : Roa}
    (h : roa ∈ t.lookupByPfx q) : roa ∈ storedRoas t := by
  obtain ⟨k, roas, hmem, hr, _, _⟩ := mem_lookupEntries.mp h
  exact List.mem_flatMap.mpr ⟨(k, roas), hmem, hr⟩

theorem coverCore (a b sk sq : Nat) :
    (a / 2 ^ sk * 2 ^ sk ≤ b / 2 ^ sq * 2 ^ sq ∧
      b / 2 ^ sq * 2 ^ sq + (2 ^ sq - 1) ≤
        a / 2 ^ sk * 2 ^ sk + (2 ^ sk - 1)) ↔
    2 ^ sq ≤ 2 ^ sk ∧ a / 2 ^ sk = b / 2 ^ sk := by
  have psk : 0 < 2 ^ sk := Nat.two_pow_pos sk
  have psq : 0 < 2 ^ sq := Nat.two_pow_pos sq
  constructor
  · rintro ⟨h1, h2⟩
    have hpow : 2 ^ sq ≤ 2 ^ sk := by omega
    have hsq : sq ≤ sk :=
      (Nat.pow_le_pow_iff_right (by norm_num : (1 : Nat) < 2)).mp hpow
    obtain ⟨d, hd⟩ := Nat.exists_eq_add_of_le hsq
    have hsplit : 2 ^ sk = 2 ^ sq * 2 ^ d := by rw [hd, pow_add]
    have e1 : b / 2 ^ sk = b / 2 ^ sq / 2 ^ d := by
      rw [hsplit, Nat.div_div_eq_div_mul]
    have e2 : b / 2 ^ sq * 2 ^ sq / 2 ^ sk = b / 2 ^ sq / 2 ^ d := by
      rw [hsplit, ← Nat.div_div_eq_div_mul, Nat.mul_div_cancel _ psq]
    refine ⟨hpow, ?_⟩
    have hlow : a / 2 ^ sk ≤ b / 2 ^ sq * 2 ^ sq / 2 ^ sk :=
      (Nat.le_div_iff_mul_le psk).mpr h1
    have hup : b / 2 ^ sq * 2 ^ sq / 2 ^ sk < a / 2 ^ sk + 1 := by
      rw [Nat.div_lt_iff_lt_mul psk, Nat.add_mul, Nat.one_mul]
      omega
    rw [e1, ← e2]
    omega
  · rintro ⟨hpow, heq⟩
    have hsq : sq ≤ sk :=
      (Nat.pow_le_pow_iff_right (by norm_num : (1 : Nat) < 2)).mp hpow
    obtain ⟨d, hd⟩ := Nat.exists_eq_add_of_le hsq
    have hsplit : 2 ^ sk = 2 ^ sq * 2 ^ d := by rw [hd, pow_add]
    have pd : 0 < 2 ^ d := Nat.two_pow_pos d
    have e1 : b / 2 ^ sk = b / 2 ^ sq / 2 ^ d := by
      rw [hsplit, Nat.div_div_eq_div_mul]
    have hmulk : 2 ^ sk = 2 ^ d * 2 ^ sq := by rw [hsplit, Nat.mul_comm]
    have hnetk : a / 2 ^ sk * 2 ^ sk =
        b / 2 ^ sq / 2 ^ d * 2 ^ d * 2 ^ sq := by
      rw [heq, e1, hmulk, ← Nat.mul_assoc]
    constructor
    · rw [hnetk]
      exact Nat.mul_le_mul_right _ (Nat.div_mul_le_self _ _)
    · have hbb := Nat.div_add_mod (b / 2 ^ sq) (2 ^ d)
      rw [Nat.mul_comm] at hbb
      have hbm := Nat.mod_lt (b / 2 ^ sq) pd
      have hstep : (b / 2 ^ sq + 1) * 2 ^ sq ≤
          (b / 2 ^ sq / 2 ^ d * 2 ^ d + 2 ^ d) * 2 ^ sq :=
        Nat.mul_le_mul_right _ (by omega)
      have hexp : b / 2 ^ sq * 2 ^ sq + 2 ^ sq ≤
          a / 2 ^ sk * 2 ^ sk + 2 ^ sk := by
        rw [hnetk, hmulk]
        have el : b / 2 ^ sq * 2 ^ sq + 2 ^ sq = (b / 2 ^ sq + 1) * 2 ^ sq := by
          ring
        have er : b / 2 ^ sq / 2 ^ d * 2 ^ d * 2 ^ sq + 2 ^ d * 2 ^ sq =
            (b / 2 ^ sq / 2 ^ d * 2 ^ d + 2 ^ d) * 2 ^ sq := by ring
        rw [el, er]
        exact hstep
      omega

/-- The `ipnet` containment test agrees with the spec's bitwise covering
relation on well-formed networks. -/
theorem containsNet_iff_coveringSpec {k q : IpNet} (hk : wfIpNet k)
    (hq : wfIpNet q) : containsNet k q = true ↔ coveringSpec k q := by
  unfold containsNet coveringSpec
  simp only [Bool.and_eq_true, beq_iff_eq, decide_eq_true_iff, and_assoc,
    IpNet.broadcast, IpNet.network]
  constructor
  · rintro ⟨hfam, h1, h2⟩
    have hB : k.bits = q.bits := by simp [IpNet.bits, hfam]
    refine ⟨hfam, ?_⟩
    rw [hB] at h1 h2
    have hcc := (coverCore k.addr q.addr (q.bits - k.len) (q.bits - q.len)).mp
      ⟨h1, h2⟩
    refine ⟨?_, by rw [hB]; exact hcc.2⟩
    have hpow := hcc.1
    have hsq : q.bits - q.len ≤ q.bits - k.len :=
      (Nat.pow_le_pow_iff_right (by norm_num : (1 : Nat) < 2)).mp hpow
    have hkb : k.len ≤ q.bits := hB ▸ hk.1
    have hqb : q.len ≤ q.bits := hq.1
    omega
  · rintro ⟨hfam, hle, heq⟩
    have hB : k.bits = q.bits := by simp [IpNet.bits, hfam]
    refine ⟨hfam, ?_⟩
    rw [hB] at heq ⊢
    have hsq : q.bits - q.len ≤ q.bits - k.len := Nat.sub_le_sub_left hle _
    have hpow : 2 ^ (q.bits - q.len) ≤ 2 ^ (q.bits - k.len) :=
      Nat.pow_le_pow_right (by norm_num) hsq
    exact (coverCore k.addr q.addr (q.bits - k.len) (q.bits - q.len)).mpr
      ⟨hpow, heq⟩

theorem validateLoop_eq (q : IpNet) (asn : Nat) (ms : List Roa) :
    validateLoop q asn ms =
      if ms.any fun r => r.asn == asn && decide (q.len ≤ r.max_length) then
        .valid
      else .invalid := by
  induction ms with
  | nil => simp [validateLoop]
  | cons r rest ih =>
    by_cases h : (r.asn == asn && decide (q.len ≤ r.max_length)) = true
    · simp [validateLoop, h]
    · simp only [validateLoop, h, if_false, ih, List.any_cons,
        Bool.false_or, eq_self_iff_true]
      simp [h]

theorem expiryLoop_eq (q : IpNet) (asn : Nat) (ct : Int) (ms : List Roa) :
    ∀ found, expiryLoop q asn ct ms found =
      if ms.any fun r =>
          r.asn == asn && decide (q.len ≤ r.max_length) &&
            isValidTime r ct then .valid
      else if found ||
          ms.any fun r => r.asn == asn && decide (q.len ≤ r.max_length) then
        .unknown
      else .invalid := by
  induction ms with
  | nil => intro found; cases found <;> simp [expiryLoop]
  | cons r rest ih =>
    intro found
    by_cases hm : (r.asn == asn && decide (q.len ≤ r.max_length)) = true
    · by_cases hv : isValidTime r ct
      · simp [expiryLoop, hm, hv]
      · simp only [expiryLoop, hm, if_true, hv, if_false, ih, List.any_cons]
        simp [hm, hv]
    · simp only [expiryLoop, hm, if_false, ih, List.any_cons]
      simp [hm]


/-!
## Concrete example data used by witnesses
-/

/-- `10.0.0.0/8`. -/
def exP8 : IpNet := { isV6 := false, addr := 167772160, len := 8 }

/-- `10.1.0.0/16`. -/
def exQ16 : IpNet := { isV6 := false, addr := 167837696, len := 16 }

/-- `10.1.0.0/24`. -/
def exQ24 : IpNet := { isV6 := false, addr := 167837696, len := 24 }

/-- A ROA for `10.0.0.0/8` with `max_length` 16. -/
def exRoa10 : Roa :=
  { pfx := exP8, asn := 64496, max_length := 16, rir := none,
    not_before := none, not_after := none }

/-- A trie holding only `exRoa10`. -/
def exTrie10 : RpkiTrie := ((RpkiTrie.new none).insertRoa exRoa10).2

/-- An IPv6 network whose numeric bits coincide with `10.0.0.0/8`. -/
def exV6Key : IpNet := { isV6 := true, addr := 167772160, len := 8 }

/-- A ROA keyed under the IPv6 network `exV6Key`. -/
def exRoaV6 : Roa :=
  { pfx := exV6Key, asn := 64496, max_length := 128, rir := none,
    not_before := none, not_after := none }

/-- A trie holding only the IPv6-keyed `exRoaV6`. -/
def exTrieV6 : RpkiTrie := ((RpkiTrie.new none).insertRoa exRoaV6).2

/-!
## Claims
-/

/-- **C2.** `lookup_by_prefix(q)` returns exactly the stored ROA records
whose key prefix is a covering (less-specific-or-equal, same address
family) network of `q` — equal family, key length at most the query
length, agreeing leading bits — and whose `max_length` is at least `q`'s
prefix length. -/
theorem c2_lookup_by_pfx_covering (t : RpkiTrie) (q : IpNet) (roa : Roa)
    (hq : wfIpNet q) (hkeys : ∀ e ∈ t.trie, wfIpNet e.1) :
    roa ∈ t.lookupByPfx q ↔
      ∃ k roas, (k, roas) ∈ t.trie ∧ roa ∈ roas ∧ coveringSpec k q ∧
        q.len ≤ roa.max_length := by
  constructor
  · intro h
    obtain ⟨k, roas, hmem, hr, hc, hml⟩ := mem_lookupEntries.mp h
    exact ⟨k, roas, hmem, hr,
      (containsNet_iff_coveringSpec (hkeys _ hmem) hq).mp hc, hml⟩
  · rintro ⟨k, roas, hmem, hr, hc, hml⟩
    exact mem_lookupEntries.mpr ⟨k, roas, hmem, hr,
      (containsNet_iff_coveringSpec (hkeys _ hmem) hq).mpr hc, hml⟩

/-- Witness for C2: the ROA for `10.0.0.0/8` with `max_length` 16 is
returned for the query `10.1.0.0/16`, not returned for `10.1.0.0/24`,
and an IPv6-keyed ROA is never returned for an IPv4 query. -/
theorem c2_lookup_by_pfx_covering_witness :
    exRoa10 ∈ exTrie10.lookupByPfx exQ16 ∧
      exTrie10.lookupByPfx exQ24 = [] ∧
      exTrieV6.lookupByPfx exQ16 = [] := by
  refine ⟨?_, by decide, by decide⟩
  exact (c2_lookup_by_pfx_covering exTrie10 exQ16 exRoa10 (by decide)
      (by decide)).mpr
    ⟨exP8, [exRoa10], by decide, by decide, by decide, by decide⟩

/-- **C4.** `validate` returns `Unknown` when the covering lookup is empty,
`Valid` when some returned record's `asn` equals the query ASN, and
`Invalid` when records exist but none matches the ASN. -/
theorem c4_validate_spec (t : RpkiTrie) (q : IpNet) (asn : Nat) :
    t.validate q asn = specValidate t q asn := by
  by_cases hemp : (t.lookupByPfx q).isEmpty
  · simp [RpkiTrie.validate, specValidate, hemp]
  · have hany : (t.lookupByPfx q).any
        (fun r => r.asn == asn && decide (q.len ≤ r.max_length)) =
        (t.lookupByPfx q).any fun r => r.asn == asn :=
      anyCongr fun r hr => by
        rw [decide_eq_true (lookup_max_length hr), Bool.and_true]
    simp only [RpkiTrie.validate, specValidate, hemp, Bool.false_eq_true,
      if_false, validateLoop_eq, hany]

/-- **C1.** The computed time-validity test agrees with the spec's
"`at_time ≥ not_before` (when present) and `at_time ≤ not_after` (when
present)", and at an explicitly supplied check time `validate_check_expiry`
returns `Unknown` on an empty lookup, `Valid` when the first (equivalently,
any) ASN-matching time-valid record exists, `Unknown` when records match
the ASN but none is time-valid, and `Invalid` when no record matches the
ASN. -/
theorem c1_validate_check_expiry_spec :
    (∀ (roa : Roa) (at_time : Int),
        isValidTime roa at_time = timeValidB roa at_time) ∧
    ∀ (t : RpkiTrie) (q : IpNet) (asn : Nat) (at_time now : Int),
      t.validateCheckExpiry q asn (some at_time) now =
        specValidateCheckExpiry t q asn at_time := by
  have hvt : ∀ (roa : Roa) (ct : Int),
      isValidTime roa ct = timeValidB roa ct := by
    intro roa ct
    unfold isValidTime timeValidB
    cases roa.not_before with
    | none =>
      cases roa.not_after with
      | none => rfl
      | some na =>
        simp only [Option.all_none, Option.all_some, Bool.true_and]
        by_cases h : na < ct
        · simp [h, show ¬ct ≤ na from by omega]
        · simp [h, show ct ≤ na from by omega]
    | some nb =>
      cases roa.not_after with
      | none =>
        simp only [Option.all_none, Option.all_some, Bool.and_true]
        by_cases h : ct < nb
        · simp [h, show ¬nb ≤ ct from by omega]
        · simp [h, show nb ≤ ct from by omega]
      | some na =>
        simp only [Option.all_some]
        by_cases h1 : ct < nb
        · simp [h1, show ¬nb ≤ ct from by omega]
        · by_cases h2 : na < ct
          · simp [h1, h2, show nb ≤ ct from by omega,
              show ¬ct ≤ na from by omega]
          · simp [h1, h2, show nb ≤ ct from by omega,
              show ct ≤ na from by omega]
  refine ⟨hvt, ?_⟩
  intro t q asn ct now
  by_cases hemp : (t.lookupByPfx q).isEmpty
  · simp [RpkiTrie.validateCheckExpiry, specValidateCheckExpiry, hemp]
  · have h1 : (t.lookupByPfx q).any
        (fun r => r.asn == asn && decide (q.len ≤ r.max_length) &&
          isValidTime r ct) =
        (t.lookupByPfx q).any
          (fun r => r.asn == asn && timeValidB r ct) :=
      anyCongr fun r hr => by
        rw [decide_eq_true (lookup_max_length hr), Bool.and_true, hvt]
    have h2 : (t.lookupByPfx q).any
        (fun r => r.asn == asn && decide (q.len ≤ r.max_length)) =
        (t.lookupByPfx q).any (fun r => r.asn == asn) :=
      anyCongr fun r hr => by
        rw [decide_eq_true (lookup_max_length hr), Bool.and_true]
    simp only [RpkiTrie.validateCheckExpiry, specValidateCheckExpiry, hemp,
      Bool.false_eq_true, if_false, Option.getD_some, expiryLoop_eq, h1, h2,
      Bool.false_or]

/-- **C10.** On a trie all of whose stored ROAs carry no time bounds,
`validate_check_expiry` at any explicitly supplied check time agrees with
`validate`. -/
theorem c10_check_expiry_eq_validate (t : RpkiTrie)
    (h : ∀ roa ∈ storedRoas t,
      roa.not_before = none ∧ roa.not_after = none) :
    ∀ (q : IpNet) (asn : Nat) (at_time now : Int),
      t.validateCheckExpiry q asn (some at_time) now = t.validate q asn := by
  intro q asn ct now
  by_cases hemp : (t.lookupByPfx q).isEmpty
  · simp [RpkiTrie.validateCheckExpiry, RpkiTrie.validate, hemp]
  · have h1 : (t.lookupByPfx q).any
        (fun r => r.asn == asn && decide (q.len ≤ r.max_length) &&
          isValidTime r ct) =
        (t.lookupByPfx q).any
          (fun r => r.asn == asn && decide (q.len ≤ r.max_length)) :=
      anyCongr fun r hr => by
        obtain ⟨hnb, hna⟩ := h r (lookup_sub_stored hr)
        simp [isValidTime, hnb, hna]
    simp only [RpkiTrie.validateCheckExpiry, RpkiTrie.validate, hemp,
      Bool.false_eq_true, if_false, Option.getD_some, expiryLoop_eq,
      validateLoop_eq, h1, Bool.false_or]
    by_cases hA : ((t.lookupByPfx q).any
        fun r => r.asn == asn && decide (q.len ≤ r.max_length)) = true
    · simp [hA]
    · simp [hA]

/-- Witness for C10: on the concrete unbounded trie `exTrie10`, the two
validation functions agree at check time 5. -/
theorem c10_check_expiry_eq_validate_witness :
    exTrie10.validateCheckExpiry exQ16 64496 (some 5) 0 =
      exTrie10.validate exQ16 64496 :=
  c10_check_expiry_eq_validate exTrie10 (by decide) exQ16 64496 5 0

/-!
## Insertion lemmas and claims C3, C9
-/

theorem keyEq_rfl (a : IpNet) : keyEq a a = true := by
  simp [keyEq]

theorem insertRoaList_fst (roa : Roa) (es : List (IpNet × List Roa)) :
    (insertRoaList roa es).1 = true ↔
      ∀ e ∈ es, keyEq e.1 roa.pfx = false := by
  induction es with
  | nil => simp [insertRoaList]
  | cons e rest ih =>
    obtain ⟨k, roas⟩ := e
    cases hkey : keyEq k roa.pfx with
    | true => simp [insertRoaList, hkey]
    | false => simp [insertRoaList, hkey, ih]

theorem mem_insertRoaList (roa r : Roa) (es : List (IpNet × List Roa))
    (h : r ∈ (insertRoaList roa es).2.flatMap (·.2)) :
    r ∈ es.flatMap (·.2) ∨ r = roa := by
  induction es with
  | nil =>
    simp only [insertRoaList, List.flatMap_cons, List.flatMap_nil,
      List.append_nil, List.mem_cons, List.not_mem_nil, or_false] at h
    exact Or.inr h
  | cons e rest ih =>
    obtain ⟨k, roas⟩ := e
    cases hkey : keyEq k roa.pfx with
    | true =>
      simp only [insertRoaList, hkey, if_true, List.flatMap_cons,
        List.mem_append] at h
      rcases h with h | h
      · by_cases hdup : (roas.any fun existing =>
            existing.asn == roa.asn &&
              existing.max_length == roa.max_length) = true
        · rw [if_pos hdup] at h
          exact Or.inl (by
            rw [List.flatMap_cons]; exact List.mem_append_left _ h)
        · rw [if_neg hdup] at h
          rcases List.mem_append.mp h with h | h
          · exact Or.inl (by
              rw [List.flatMap_cons]; exact List.mem_append_left _ h)
          · exact Or.inr (by simpa using h)
      · exact Or.inl (by
          rw [List.flatMap_cons]; exact List.mem_append_right _ h)
    | false =>
      simp only [insertRoaList, hkey, Bool.false_eq_true, if_false,
        List.flatMap_cons, List.mem_append] at h
      rcases h with h | h
      · exact Or.inl (by
          rw [List.flatMap_cons]; exact List.mem_append_left _ h)
      · rcases ih h with h | h
        · exact Or.inl (by
            rw [List.flatMap_cons]; exact List.mem_append_right _ h)
        · exact Or.inr h

/-- **C3 (amended).** Duplicate handling of `insert_roa`: (1) inserting
the same record twice into an empty trie returns `true` then `false` and
leaves exactly one stored record; (2) `insert_roa` returns `true` iff no
entry for the record's exact prefix key exists; (3) a second record with
the same prefix, `asn` and `max_length` is discarded — NOT retained —
even if its issuer or validity window differs; (4) a second record with
the same prefix but a different `asn` or `max_length` is retained
alongside the first. -/
theorem c3_insert_roa_dedup :
    (∀ roa : Roa,
      ((RpkiTrie.new none).insertRoa roa).1 = true ∧
      (((RpkiTrie.new none).insertRoa roa).2.insertRoa roa).1 = false ∧
      storedRoas ((((RpkiTrie.new none).insertRoa roa).2.insertRoa roa).2) =
        [roa]) ∧
    (∀ (t : RpkiTrie) (roa : Roa),
      (t.insertRoa roa).1 = true ↔
        ∀ e ∈ t.trie, keyEq e.1 roa.pfx = false) ∧
    (∀ roa r2 : Roa, roa.pfx = r2.pfx → roa.asn = r2.asn →
      roa.max_length = r2.max_length →
      storedRoas ((((RpkiTrie.new none).insertRoa roa).2.insertRoa r2).2) =
        [roa]) ∧
    (∀ roa r2 : Roa, roa.pfx = r2.pfx →
      roa.asn ≠ r2.asn ∨ roa.max_length ≠ r2.max_length →
      storedRoas ((((RpkiTrie.new none).insertRoa roa).2.insertRoa r2).2) =
        [roa, r2]) := by
  have hdup : ∀ roa r2 : Roa, roa.pfx = r2.pfx → roa.asn = r2.asn →
      roa.max_length = r2.max_length →
      storedRoas ((((RpkiTrie.new none).insertRoa roa).2.insertRoa r2).2) =
        [roa] := by
    intro roa r2 hp ha hm
    simp [RpkiTrie.insertRoa, RpkiTrie.new, insertRoaList, storedRoas,
      hp, ha, hm, keyEq_rfl]
  refine ⟨?_, ?_, hdup, ?_⟩
  · intro roa
    refine ⟨by simp [RpkiTrie.insertRoa, RpkiTrie.new, insertRoaList], ?_,
      hdup roa roa rfl rfl rfl⟩
    simp [RpkiTrie.insertRoa, RpkiTrie.new, insertRoaList, keyEq_rfl]
  · intro t roa
    exact insertRoaList_fst roa t.trie
  · intro roa r2 hp hne
    have hcond : (roa.asn == r2.asn && roa.max_length == r2.max_length) =
        false := by
      rcases hne with h | h <;> simp [h]
    simp [RpkiTrie.insertRoa, RpkiTrie.new, insertRoaList, storedRoas,
      hp, keyEq_rfl, hcond]

/-- A copy of `exRoa10` differing only in issuer and validity window. -/
def exRoa10Meta : Roa :=
  { pfx := exP8, asn := 64496, max_length := 16, rir := some .ARIN,
    not_before := some 3, not_after := some 9 }

/-- A copy of `exRoa10` with a different ASN. -/
def exRoa10Asn : Roa :=
  { pfx := exP8, asn := 64497, max_length := 16, rir := none,
    not_before := none, not_after := none }

/-- Witness for C3 at concrete records: duplicate-by-metadata discarded,
different-ASN record retained, first insert reports a new prefix. -/
theorem c3_insert_roa_dedup_witness :
    storedRoas ((((RpkiTrie.new none).insertRoa exRoa10).2.insertRoa
        exRoa10Meta).2) = [exRoa10] ∧
    storedRoas ((((RpkiTrie.new none).insertRoa exRoa10).2.insertRoa
        exRoa10Asn).2) = [exRoa10, exRoa10Asn] ∧
    ((RpkiTrie.new none).insertRoa exRoa10).1 = true :=
  ⟨c3_insert_roa_dedup.2.2.1 exRoa10 exRoa10Meta rfl rfl rfl,
   c3_insert_roa_dedup.2.2.2 exRoa10 exRoa10Asn rfl (Or.inl (by decide)),
   (c3_insert_roa_dedup.1 exRoa10).1⟩

/-- Counterexample for C3 as originally stated: `exRoa10Meta` shares
`exRoa10`'s prefix, `asn` and `max_length` and differs from it only in
issuer and validity window, yet after inserting both the trie retains a
single record — the metadata-differing second record is discarded, not
retained. -/
theorem c3_counterexample :
    exRoa10Meta.pfx = exRoa10.pfx ∧ exRoa10Meta.asn = exRoa10.asn ∧
      exRoa10Meta.max_length = exRoa10.max_length ∧
      exRoa10Meta ≠ exRoa10 ∧
      storedRoas ((((RpkiTrie.new none).insertRoa exRoa10).2.insertRoa
        exRoa10Meta).2) = [exRoa10] ∧
      exRoa10Meta ∉ storedRoas ((((RpkiTrie.new none).insertRoa
        exRoa10).2.insertRoa exRoa10Meta).2) := by
  refine ⟨rfl, rfl, rfl, by decide, by decide, by decide⟩

/-- A ROA whose `max_length` (8) is smaller than its own prefix length
(24): `insert_roa` stores it unchanged. -/
def exRoaBadML : Roa :=
  { pfx := exQ24, asn := 64496, max_length := 8, rir := none,
    not_before := none, not_after := none }

/-- Counterexample for C9: `insert_roa` accepts and stores a record whose
`max_length` is below its prefix length, so not every stored record
satisfies the bound. -/
theorem c9_counterexample :
    storedRoas ((RpkiTrie.new none).insertRoa exRoaBadML).2 = [exRoaBadML] ∧
      exRoaBadML.max_length < exRoaBadML.pfx.len := by
  constructor <;> decide

/-- **C9 (amended).** Neither `insert_roa` nor the rpki-client merge
enforces the `max_length ≥ prefix length` bound; the invariant holds of
every stored record provided every inserted record (and every merged
entry) satisfies it. -/
theorem c9_ml_invariant_preserved :
    (∀ (t : RpkiTrie) (roa : Roa), mlInv t →
      roa.pfx.len ≤ roa.max_length → mlInv (t.insertRoa roa).2) ∧
    (∀ (t : RpkiTrie) (data : RpkiClientData), mlInv t →
      (∀ e ∈ data.roas, ∀ p, e.pfx = some p → p.len ≤ e.max_length) →
      mlInv (t.mergeRpkiClientData data)) := by
  have hins : ∀ (t : RpkiTrie) (roa : Roa), mlInv t →
      roa.pfx.len ≤ roa.max_length → mlInv (t.insertRoa roa).2 := by
    intro t roa ht hroa r hr
    rcases mem_insertRoaList roa r t.trie hr with h | rfl
    · exact ht r h
    · exact hroa
  refine ⟨hins, ?_⟩
  have hmerge : ∀ (rs : List RpkiClientRoaEntry) (t : RpkiTrie), mlInv t →
      (∀ e ∈ rs, ∀ p, e.pfx = some p → p.len ≤ e.max_length) →
      mlInv (mergeRoaEntries t rs) := by
    intro rs
    induction rs with
    | nil => intro t ht _; exact ht
    | cons e rest ih =>
      intro t ht hall
      cases hp : e.pfx with
      | none =>
        rw [mergeRoaEntries, hp]
        exact ih t ht fun e' he' => hall e' (List.mem_cons_of_mem _ he')
      | some p =>
        rw [mergeRoaEntries, hp]
        refine ih _ (hins t (roaOfEntry e p) ht ?_)
          fun e' he' => hall e' (List.mem_cons_of_mem _ he')
        exact hall e (List.mem_cons_self _ _) p hp
  intro t data ht hall r hr
  exact hmerge data.roas t ht hall r hr

/-- Witness for C9's amended preservation statement at a concrete insert. -/
theorem c9_ml_invariant_preserved_witness :
    mlInv (exTrie10.insertRoa exRoa10Asn).2 :=
  c9_ml_invariant_preserved.1 exTrie10 exRoa10Asn (by decide) (by decide)

/-!
## Claims C5 and C8: adapter defaults and unparseable prefixes
-/

/-- A rpki-client ROA entry whose JSON had no `expires` field: serde's
`#[serde(default)]` yields `0`. -/
def exEntryNoExpiry : RpkiClientRoaEntry :=
  { pfx := some exQ24, max_length := 24, asn := 64496, ta := none,
    expires := defaultExpires }

/-- Counterexample for C5: merging an entry with a missing expiry stores a
ROA whose `not_after` is `Some`(Unix epoch), not absent, and that ROA is
already time-expired one second after the epoch. -/
theorem c5_counterexample :
    storedRoas ((RpkiTrie.new none).mergeRpkiClientData
        { roas := [exEntryNoExpiry], aspas := [] }) =
      [{ pfx := exQ24, asn := 64496, max_length := 24, rir := none,
         not_before := none, not_after := some 0 }] ∧
      (roaOfEntry exEntryNoExpiry exQ24).not_after ≠ none ∧
      isValidTime (roaOfEntry exEntryNoExpiry exQ24) 1 = false := by
  refine ⟨by decide, by decide, by decide⟩

/-- **C5 (amended).** A source ROA record whose expiry field is missing
gets `expires = 0` from the serde default, so the stored `Roa` has
`not_after = Some`(Unix epoch); with respect to its upper bound it is
time-valid exactly at check times at most the epoch, not at every time. -/
theorem c5_missing_expiry_epoch (e : RpkiClientRoaEntry) (p : IpNet)
    (hexp : e.expires = defaultExpires) :
    (roaOfEntry e p).not_after = some 0 ∧
      ∀ at_time : Int,
        isValidTime (roaOfEntry e p) at_time = decide (at_time ≤ 0) := by
  have hna : (roaOfEntry e p).not_after = some 0 := by
    simp [roaOfEntry, hexp, defaultExpires, u64ToI64, fromTimestamp]
  refine ⟨hna, fun at_time => ?_⟩
  rw [isValidTime, hna]
  show (true && if (0 : Int) < at_time then false else true) = _
  by_cases h : (0 : Int) < at_time
  · simp [h, show ¬at_time ≤ 0 from by omega]
  · simp [h, show at_time ≤ 0 from by omega]

/-- Witness for C5's amended statement at the concrete entry. -/
theorem c5_missing_expiry_epoch_witness :
    (roaOfEntry exEntryNoExpiry exQ24).not_after = some 0 ∧
      isValidTime (roaOfEntry exEntryNoExpiry exQ24) 1 =
        decide ((1 : Int) ≤ 0) :=
  ⟨(c5_missing_expiry_epoch exEntryNoExpiry exQ24 rfl).1,
   (c5_missing_expiry_epoch exEntryNoExpiry exQ24 rfl).2 1⟩

/-- A rpki-client ROA entry whose prefix text failed to parse. -/
def exEntryBadPfx : RpkiClientRoaEntry :=
  { pfx := none, max_length := 24, asn := 64496, ta := none, expires := 5 }

/-- Counterexample for C8: loading a document whose only ROA record has
unparseable prefix text succeeds with an empty trie — the parse failure
does not propagate as an error; the record is silently dropped. -/
theorem c8_counterexample :
    RpkiTrie.fromRpkiClientData { roas := [exEntryBadPfx], aspas := [] }
        none = .ok (RpkiTrie.new none) :=
  rfl

/-- **C8 (amended).** The load never fails on record content:
`from_rpki_client_data` always returns `Ok`, and a ROA record whose prefix
text does not parse is silently skipped by the merge (`Err(_) =>
continue`) rather than reported to the caller. -/
theorem c8_bad_pfx_skipped :
    (∀ (data : RpkiClientData) (date : Option Int),
      RpkiTrie.fromRpkiClientData data date =
        .ok ((RpkiTrie.new date).mergeRpkiClientData data)) ∧
    ∀ (t : RpkiTrie) (e : RpkiClientRoaEntry)
      (rest : List RpkiClientRoaEntry) (aspas : List RpkiClientAspaEntry),
      e.pfx = none →
      t.mergeRpkiClientData { roas := e :: rest, aspas := aspas } =
        t.mergeRpkiClientData { roas := rest, aspas := aspas } := by
  refine ⟨fun data date => rfl, ?_⟩
  intro t e rest aspas hp
  simp [RpkiTrie.mergeRpkiClientData, mergeRoaEntries, hp]

/-- Witness for C8's amended statement: the bad-prefix record contributes
nothing to the merge. -/
theorem c8_bad_pfx_skipped_witness :
    (RpkiTrie.new none).mergeRpkiClientData
        { roas := [exEntryBadPfx], aspas := [] } =
      (RpkiTrie.new none).mergeRpkiClientData { roas := [], aspas := [] } :=
  c8_bad_pfx_skipped.2 (RpkiTrie.new none) exEntryBadPfx [] [] rfl

/-!
## Claim C7: ASPA first-wins deduplication
-/

theorem mergeAspaEntries_append (l1 l2 : List RpkiClientAspaEntry) :
    ∀ acc, mergeAspaEntries acc (l1 ++ l2) =
      mergeAspaEntries (mergeAspaEntries acc l1) l2 := by
  induction l1 with
  | nil => intro acc; rfl
  | cons a rest ih =>
    intro acc
    by_cases hdup : (acc.any fun x => x.customer_asn == a.customer_asid) =
        true
    · rw [List.cons_append, mergeAspaEntries, if_pos hdup,
        mergeAspaEntries, if_pos hdup, ih]
    · rw [List.cons_append, mergeAspaEntries, if_neg hdup,
        mergeAspaEntries, if_neg hdup, ih]

theorem aspas_mergeRoaEntries (rs : List RpkiClientRoaEntry) :
    ∀ t : RpkiTrie, (mergeRoaEntries t rs).aspas = t.aspas := by
  induction rs with
  | nil => intro t; rfl
  | cons e rest ih =>
    intro t
    cases hp : e.pfx with
    | none => rw [mergeRoaEntries, hp]; exact ih t
    | some p => rw [mergeRoaEntries, hp]; exact ih _

theorem aspas_merge (t : RpkiTrie) (data : RpkiClientData) :
    (t.mergeRpkiClientData data).aspas =
      mergeAspaEntries t.aspas data.aspas := by
  show mergeAspaEntries (mergeRoaEntries t data.roas).aspas data.aspas = _
  rw [aspas_mergeRoaEntries]

theorem fold_merge_aspas (batches : List RpkiClientData) :
    ∀ t : RpkiTrie,
      (batches.foldl RpkiTrie.mergeRpkiClientData t).aspas =
        mergeAspaEntries t.aspas (batches.flatMap (·.aspas)) := by
  induction batches with
  | nil => intro t; rfl
  | cons d rest ih =>
    intro t
    rw [List.foldl_cons, ih, aspas_merge, List.flatMap_cons,
      mergeAspaEntries_append]

theorem findCustomer_mergeAspaEntries (c : Nat)
    (l : List RpkiClientAspaEntry) :
    ∀ acc, findCustomer (mergeAspaEntries acc l) c =
      (findCustomer acc c).or
        ((l.find? fun e => e.customer_asid == c).map aspaOfEntry) := by
  induction l with
  | nil => intro acc; simp [mergeAspaEntries, Option.or_none]
  | cons a rest ih =>
    intro acc
    by_cases hdup : (acc.any fun x => x.customer_asn == a.customer_asid) =
        true
    · rw [mergeAspaEntries, if_pos hdup, ih]
      by_cases hc : (a.customer_asid == c) = true
      · have hcc : a.customer_asid = c := by simpa using hc
        have hsome : (findCustomer acc c).isSome = true := by
          rw [findCustomer]
          rw [List.find?_isSome]
          obtain ⟨x, hx, hxe⟩ := List.any_eq_true.mp hdup
          exact ⟨x, hx, by rw [← hcc]; exact hxe⟩
        rw [List.find?_cons_of_pos (p := fun e => e.customer_asid == c)
          rest hc]
        simp only [Option.or_of_isSome hsome]
      · rw [List.find?_cons_of_neg (p := fun e => e.customer_asid == c)
          rest hc]
    · rw [mergeAspaEntries, if_neg hdup, ih, findCustomer,
        List.find?_append, Option.or_assoc]
      have hfc : (List.find? (fun x => x.customer_asn == c) acc) =
          findCustomer acc c := rfl
      rw [hfc]
      by_cases hc : (a.customer_asid == c) = true
      · rw [List.find?_cons_of_pos (p := fun e => e.customer_asid == c)
          rest hc]
        have h1 : List.find? (fun x => x.customer_asn == c)
            [({ customer_asn := a.customer_asid, providers := a.providers,
                expires := fromTimestamp a.expires } : Aspa)] =
            some (aspaOfEntry a) :=
          List.find?_cons_of_pos _ (by simpa using hc)
        rw [h1]
        rfl
      · rw [List.find?_cons_of_neg (p := fun e => e.customer_asid == c)
          rest hc]
        have h1 : List.find? (fun x => x.customer_asn == c)
            [({ customer_asn := a.customer_asid, providers := a.providers,
                expires := fromTimestamp a.expires } : Aspa)] = none := by
          rw [List.find?_cons_of_neg _ (by simpa using hc)]
          exact List.find?_nil
        rw [h1]
        rfl

theorem mergeAspaEntries_distinct (l : List RpkiClientAspaEntry) :
    ∀ acc : List Aspa,
      (acc.Pairwise fun x y => x.customer_asn ≠ y.customer_asn) →
      ((mergeAspaEntries acc l).Pairwise
        fun x y => x.customer_asn ≠ y.customer_asn) := by
  induction l with
  | nil => intro acc h; exact h
  | cons a rest ih =>
    intro acc h
    by_cases hdup : (acc.any fun x => x.customer_asn == a.customer_asid) =
        true
    · rw [mergeAspaEntries, if_pos hdup]
      exact ih acc h
    · rw [mergeAspaEntries, if_neg hdup]
      refine ih _ (List.pairwise_append.mpr ⟨h, List.pairwise_singleton .. , ?_⟩)
      intro u hu v hv
      have hv' : v = aspaOfEntry a := by simpa using hv
      subst hv'
      intro heq
      exact hdup (List.any_eq_true.mpr ⟨u, hu, by simp [aspaOfEntry] at heq ⊢; exact heq⟩)

/-- **C7.** Over any sequence of rpki-client merges into a fresh trie,
stored ASPAs have pairwise distinct customer ASNs, and the record stored
for a customer ASN is the conversion of the first entry with that customer
ASN across the concatenated batches (first-wins; later entries for a
previously seen customer are ignored). -/
theorem c7_aspa_first_wins (batches : List RpkiClientData)
    (date : Option Int) :
    ((batches.foldl RpkiTrie.mergeRpkiClientData
        (RpkiTrie.new date)).aspas.Pairwise
      fun x y => x.customer_asn ≠ y.customer_asn) ∧
    ∀ c : Nat,
      findCustomer
          (batches.foldl RpkiTrie.mergeRpkiClientData
            (RpkiTrie.new date)).aspas c =
        ((batches.flatMap (·.aspas)).find?
            fun e => e.customer_asid == c).map aspaOfEntry := by
  have he : (batches.foldl RpkiTrie.mergeRpkiClientData
      (RpkiTrie.new date)).aspas =
      mergeAspaEntries [] (batches.flatMap (·.aspas)) :=
    fold_merge_aspas batches (RpkiTrie.new date)
  rw [he]
  constructor
  · exact mergeAspaEntries_distinct _ [] List.Pairwise.nil
  · intro c
    rw [findCustomer_mergeAspaEntries]
    simp [findCustomer]

/-!
## Claim C6: AS-number parsing
-/

theorem digitChar_toNat {d : Nat} (h : d < 10) :
    (digitChar d).toNat = 48 + d := by
  interval_cases d <;> rfl

theorem digitChar_isDigit {d : Nat} (h : d < 10) :
    (digitChar d).isDigit = true := by
  interval_cases d <;> rfl

theorem digitVal_append_digit (l : List Char) (c : Char) :
    digitVal (l ++ [c]) = digitVal l * 10 + (c.toNat - 48) := by
  simp [digitVal, List.foldl_append]

theorem natToDigitsAux_spec :
    ∀ (fuel n : Nat), n < fuel →
      digitVal (natToDigitsAux fuel n) = n ∧
      natToDigitsAux fuel n ≠ [] ∧
      (natToDigitsAux fuel n).all Char.isDigit = true := by
  intro fuel
  induction fuel with
  | zero => intro n h; omega
  | succ fuel ih =>
    intro n h
    by_cases hn : n < 10
    · rw [natToDigitsAux, if_pos hn]
      refine ⟨?_, by simp, by simp [digitChar_isDigit hn]⟩
      show 0 * 10 + ((digitChar n).toNat - 48) = n
      rw [digitChar_toNat hn]
      omega
    · rw [natToDigitsAux, if_neg hn]
      have hdec : n / 10 < fuel := by
        have := Nat.div_lt_self (by omega : 0 < n) (by omega : 1 < 10)
        omega
      obtain ⟨hval, hne, hdig⟩ := ih (n / 10) hdec
      refine ⟨?_, by simp, ?_⟩
      · rw [digitVal_append_digit, hval,
          digitChar_toNat (Nat.mod_lt n (by omega))]
        omega
      · rw [List.all_append, hdig, Bool.true_and, List.all_cons]
        simp [digitChar_isDigit (Nat.mod_lt n (by omega))]

theorem natToDigits_spec (n : Nat) :
    digitVal (natToDigits n) = n ∧ natToDigits n ≠ [] ∧
      (natToDigits n).all Char.isDigit = true :=
  natToDigitsAux_spec (n + 1) n (by omega)

theorem stripPlus_cons {c : Char} (cs : List Char) (h : ¬c = '+') :
    stripPlus (c :: cs) = c :: cs := by
  rw [stripPlus.eq_def]
  split
  · next rest heq =>
    injection heq with h1 h2
    exact absurd h1 h
  · rfl

theorem parseU32_of_digits (s : List Char) (hne : s ≠ [])
    (hdig : s.all Char.isDigit = true) :
    parseU32 s =
      if digitVal s < 2 ^ 32 then some (digitVal s) else none := by
  obtain ⟨c, cs, rfl⟩ : ∃ c cs, s = c :: cs := by
    cases s with
    | nil => exact absurd rfl hne
    | cons c cs => exact ⟨c, cs, rfl⟩
  have hc : ¬c = '+' := by
    intro h
    subst h
    rw [List.all_cons] at hdig
    exact absurd (Bool.and_eq_true .. ▸ hdig).1 (by decide)
  rw [parseU32, stripPlus_cons cs hc, if_pos ⟨by simp, hdig⟩]

theorem parseU32_natToDigits (n : Nat) :
    parseU32 (natToDigits n) =
      if n < 2 ^ 32 then some n else none := by
  obtain ⟨hval, hne, hdig⟩ := natToDigits_spec n
  rw [parseU32_of_digits _ hne hdig, hval]

theorem parseU32_lt {t : List Char} {v : Nat} (h : parseU32 t = some v) :
    v < 2 ^ 32 := by
  rw [parseU32] at h
  by_cases h1 : stripPlus t ≠ [] ∧ (stripPlus t).all Char.isDigit = true
  · rw [if_pos h1] at h
    by_cases h2 : digitVal (stripPlus t) < 2 ^ 32
    · rw [if_pos h2] at h
      cases h
      exact h2
    · rw [if_neg h2] at h
      exact absurd h (by simp)
  · rw [if_neg h1] at h
    exact absurd h (by simp)

theorem stripPfx_append (p s : List Char) : stripPfx p (p ++ s) = some s := by
  induction p with
  | nil => rfl
  | cons c cs ih => simp [stripPfx, ih]

theorem stripPfx_eq_some (p : List Char) :
    ∀ {s t : List Char}, stripPfx p s = some t → s = p ++ t := by
  induction p with
  | nil =>
    intro s t h
    cases h
    rfl
  | cons c cs ih =>
    intro s t h
    cases s with
    | nil => exact absurd h (by simp [stripPfx])
    | cons c2 s2 =>
      rw [stripPfx] at h
      by_cases hc : (c == c2) = true
      · rw [if_pos hc] at h
        have := ih h
        simp [this, show c = c2 from by simpa using hc]
      · rw [if_neg hc] at h
        exact absurd h (by simp)

theorem deserializeAsn_str_eq (s : List Char) :
    deserializeAsn (.str s) =
      match parseU32 (((stripPfx ['A', 'S'] s).or
          (stripPfx ['a', 's'] s)).getD s) with
      | some v => .ok v
      | none => .error "invalid ASN string" := rfl

theorem deserializeAsn_AS (t : List Char) :
    deserializeAsn (.str ('A' :: 'S' :: t)) =
      match parseU32 t with
      | some v => .ok v
      | none => .error "invalid ASN string" := by
  rw [deserializeAsn_str_eq,
    show stripPfx ['A', 'S'] ('A' :: 'S' :: t) = some t from
      stripPfx_append ['A', 'S'] t]
  rfl

theorem deserializeAsn_as (t : List Char) :
    deserializeAsn (.str ('a' :: 's' :: t)) =
      match parseU32 t with
      | some v => .ok v
      | none => .error "invalid ASN string" := by
  rw [deserializeAsn_str_eq,
    show stripPfx ['A', 'S'] ('a' :: 's' :: t) = none from rfl,
    show stripPfx ['a', 's'] ('a' :: 's' :: t) = some t from
      stripPfx_append ['a', 's'] t]
  rfl

/-- **C6.** The adapter's AS-number parsing: a bare integer below `2^32`,
the string `"AS<digits>"` and the string `"as<digits>"` all normalize to
the same value (so `64496` and `"AS64496"` yield the identical record);
values of `2^32` or more fail in every encoding; and a successful string
parse only arises from one of the accepted forms — after removing an
optional `AS`/`as` front marker, the remainder parses as a `u32`, which is
necessarily below `2^32`. -/
theorem c6_deserialize_asn :
    (∀ n : Nat, n < 2 ^ 32 →
      deserializeAsn (.num (n : Int)) = .ok n ∧
      deserializeAsn (.str ('A' :: 'S' :: natToDigits n)) = .ok n ∧
      deserializeAsn (.str ('a' :: 's' :: natToDigits n)) = .ok n) ∧
    (∀ n : Nat, 2 ^ 32 ≤ n →
      (∃ e, deserializeAsn (.num (n : Int)) = .error e) ∧
      (∃ e, deserializeAsn (.str ('A' :: 'S' :: natToDigits n)) =
        .error e) ∧
      (∃ e, deserializeAsn (.str ('a' :: 's' :: natToDigits n)) =
        .error e)) ∧
    (∀ (s : List Char) (v : Nat), deserializeAsn (.str s) = .ok v →
      v < 2 ^ 32 ∧
        ∃ t, (s = 'A' :: 'S' :: t ∨ s = 'a' :: 's' :: t ∨ s = t) ∧
          parseU32 t = some v) := by
  refine ⟨?_, ?_, ?_⟩
  · intro n h
    refine ⟨?_, ?_, ?_⟩
    · rw [deserializeAsn,
        if_pos ⟨by positivity, by exact_mod_cast h⟩]
      simp
    · rw [deserializeAsn_AS, parseU32_natToDigits, if_pos h]
    · rw [deserializeAsn_as, parseU32_natToDigits, if_pos h]
  · intro n h
    refine ⟨?_, ?_, ?_⟩
    · rw [deserializeAsn, if_neg (by push_cast; omega)]
      exact ⟨_, rfl⟩
    · rw [deserializeAsn_AS, parseU32_natToDigits, if_neg (by omega)]
      exact ⟨_, rfl⟩
    · rw [deserializeAsn_as, parseU32_natToDigits, if_neg (by omega)]
      exact ⟨_, rfl⟩
  · intro s v h
    rw [deserializeAsn_str_eq] at h
    cases hAS : stripPfx ['A', 'S'] s with
    | some u =>
      rw [hAS] at h
      change (match parseU32 u with
        | some w => (Except.ok w : Except String Nat)
        | none => Except.error "invalid ASN string") = Except.ok v at h
      cases hp : parseU32 u with
      | none =>
        rw [hp] at h
        exact absurd h (by simp)
      | some w =>
        rw [hp] at h
        injection h with hw
        subst hw
        exact ⟨parseU32_lt hp, u, Or.inl (stripPfx_eq_some _ hAS), hp⟩
    | none =>
      rw [hAS] at h
      cases has : stripPfx ['a', 's'] s with
      | some u =>
        rw [has] at h
        change (match parseU32 u with
          | some w => (Except.ok w : Except String Nat)
          | none => Except.error "invalid ASN string") = Except.ok v at h
        cases hp : parseU32 u with
        | none =>
          rw [hp] at h
          exact absurd h (by simp)
        | some w =>
          rw [hp] at h
          injection h with hw
          subst hw
          exact ⟨parseU32_lt hp, u,
            Or.inr (Or.inl (stripPfx_eq_some _ has)), hp⟩
      | none =>
        rw [has] at h
        change (match parseU32 s with
          | some w => (Except.ok w : Except String Nat)
          | none => Except.error "invalid ASN string") = Except.ok v at h
        cases hp : parseU32 s with
        | none =>
          rw [hp] at h
          exact absurd h (by simp)
        | some w =>
          rw [hp] at h
          injection h with hw
          subst hw
          exact ⟨parseU32_lt hp, s, Or.inr (Or.inr rfl), hp⟩

/-- Witness for C6 at AS 64496: the three accepted encodings produce the
identical parsed value, and the first out-of-range value fails. -/
theorem c6_deserialize_asn_witness :
    (deserializeAsn (.num ((64496 : Nat) : Int)) = .ok 64496 ∧
      deserializeAsn (.str ('A' :: 'S' :: natToDigits 64496)) =
        .ok 64496 ∧
      deserializeAsn (.str ('a' :: 's' :: natToDigits 64496)) =
        .ok 64496) ∧
    ∃ e, deserializeAsn (.num ((4294967296 : Nat) : Int)) = .error e :=
  ⟨c6_deserialize_asn.1 64496 (by norm_num),
   (c6_deserialize_asn.2.1 4294967296 (by norm_num)).1⟩
